import Mathlib

/-!
Shallow embedding of the streaming median filter in src/median.c.

The core of the program is: a rolling window of 2r+1 image rows
(initialised by the driver `median`, advanced by `shuffle_tile_rows`),
a per-row processor `handleInputRow` that for every pixel position and
channel extracts the (2r+1)x(2r+1) clamped neighbourhood, sorts it
ascending (qsort with `compareNumbers`, i.e. the unique ascending
ordering of the multiset), picks the value the code calls the median,
applies the variant decision chain, and stores the result into the
guchar output row (reduction mod 256).

Pixel values are modelled as Int (the code copies guchar samples into a
gint array and computes with gints); rows are lists of Int; the row
source (gimp_pixel_rgn_get_row on the input region) is a function from
the relative row index to the row.
-/

namespace MedianFilter

/-- Configuration struct of the plug-in (the fields of MedianInputValues
that the filtering core reads; the preview flag is GUI-only). -/
structure MedianInputValues where
  radius : Nat
  lessThan : Int
  greaterThan : Int
  button : Bool
  button2 : Bool
deriving DecidableEq, Repr

/-- The C macro CLAMP (x, low, high). -/
def cCLAMP (x low high : Int) : Int :=
  if x < low then low else if x > high then high else x

/-- Sample count 4r^2 + 4r + 1 computed in handleInputRow. -/
def numberOfPixels (radius : Nat) : Nat :=
  4 * radius * radius + 4 * radius + 1

/-- Ascending sort of the pixel array: the result of
qsort(pixelsArray, numberOfPixels, sizeof(gint), compareNumbers).
Any comparison sort of integers yields this unique ascending list. -/
def sortPixels (l : List Int) : List Int :=
  l.insertionSort (· ≤ ·)

/-- Horizontal position after edge clamping:
CLAMP (jj, 0, width - 1), used as an array index. -/
def clampCol (width : Nat) (jj : Int) : Nat :=
  (cCLAMP jj 0 ((width : Int) - 1)).toNat

/-- Neighbourhood extraction of handleInputRow: for ii over the 2r+1
window rows (outer) and jj = j-r .. j+r (inner, here jj = j - r + t),
read inputRow[ii][channels * CLAMP (jj, 0, width-1) + k]. -/
def samplePixels (inputRow : List (List Int)) (width channels radius j k : Nat) :
    List Int :=
  ((List.range (2 * radius + 1)).map (fun ii =>
    (List.range (2 * radius + 1)).map (fun (t : Nat) =>
      (inputRow.getD ii []).getD
        (channels * clampCol width ((j : Int) - (radius : Int) + (t : Int)) + k) 0))).flatten

/-- The median selection step of handleInputRow: sort, then take
pixelsArray[mid+1] when the count is odd, else the truncated mean of
pixelsArray[mid] and pixelsArray[mid+1], with mid = numberOfPixels / 2. -/
def medianOf (radius : Nat) (pixelsArray : List Int) : Int :=
  let n := numberOfPixels radius
  let sorted := sortPixels pixelsArray
  let mid := n / 2
  if n % 2 = 1 then sorted.getD (mid + 1) 0
  else (sorted.getD mid 0 + sorted.getD (mid + 1) 0) / 2

/-- Activation condition of the first variant branch (suppress-low). -/
abbrev mode1Active (U : MedianInputValues) : Prop :=
  U.lessThan ≠ 0 ∧ U.greaterThan = 0 ∧ U.button = true ∧ U.button2 = false

/-- Activation condition of the second variant branch (suppress-high). -/
abbrev mode2Active (U : MedianInputValues) : Prop :=
  U.lessThan = 0 ∧ U.greaterThan ≠ 0 ∧ U.button = false ∧ U.button2 = true

/-- Activation condition of the third variant branch (band-keep). -/
abbrev mode3Active (U : MedianInputValues) : Prop :=
  U.lessThan ≠ 0 ∧ U.greaterThan ≠ 0 ∧ U.button2 = false ∧ U.button = false

/-- Activation condition of the fourth variant branch (band-reject). -/
abbrev mode4Active (U : MedianInputValues) : Prop :=
  U.lessThan ≠ 0 ∧ U.greaterThan ≠ 0 ∧ U.button2 = true ∧ U.button = true

/-- The variant decision chain of handleInputRow (lines 450-479). -/
def decideVariant (U : MedianInputValues) (middlePixel medianResult : Int) : Int :=
  if mode1Active U then
    if middlePixel < medianResult - U.lessThan then medianResult else middlePixel
  else if mode2Active U then
    if middlePixel > medianResult + U.greaterThan then medianResult else middlePixel
  else if mode3Active U then
    if middlePixel ≥ medianResult - U.lessThan ∧ middlePixel ≤ medianResult + U.greaterThan
    then medianResult else middlePixel
  else if mode4Active U then
    if middlePixel < medianResult - U.lessThan ∨ middlePixel > medianResult + U.greaterThan
    then medianResult else middlePixel
  else medianResult

/-- One call of handleInputRow: the produced output row, with the store
into the guchar row modelled as reduction mod 256. The element written
at byte index channels * j + k is the decision result for position j,
channel k; middlePixel is read at index numberOfPixels / 2 before the
sort. -/
def handleInputRow (U : MedianInputValues) (inputRow : List (List Int))
    (width channels : Nat) : List Int :=
  ((List.range width).map (fun j =>
    (List.range channels).map (fun k =>
      let pixelsArray := samplePixels inputRow width channels U.radius j k
      let middlePixel := pixelsArray.getD (numberOfPixels U.radius / 2) 0
      let medianResult := medianOf U.radius pixelsArray
      decideVariant U middlePixel medianResult % 256))).flatten

/-- Initial fill of the row window by the driver `median`:
inputRow[radius + ii] holds the source row CLAMP (ii, 0, height-1)
for ii = -radius .. radius. -/
def initialWindow (radius : Nat) (src : Nat → List Int) (height : Nat) :
    List (List Int) :=
  (List.range (2 * radius + 1)).map (fun (m : Nat) =>
    src (cCLAMP ((m : Int) - (radius : Int)) 0 ((height : Int) - 1)).toNat)

/-- shuffle_tile_rows: fetch the source row MIN (ypos + radius, height - 1)
into inputRow[0], then rotate so that the fetched row becomes
inputRow[2 * radius] and every other row moves up by one. -/
def shuffleTileRows (radius : Nat) (src : Nat → List Int) (height ypos : Nat)
    (inputRow : List (List Int)) : List (List Int) :=
  inputRow.drop 1 ++
    [src (min ((ypos : Int) + (radius : Int)) ((height : Int) - 1)).toNat]

/-- The row window held by the driver when output row i is produced:
the initial fill for i = 0, then one shuffle_tile_rows per row. -/
def windowAt (radius : Nat) (src : Nat → List Int) (height : Nat) :
    Nat → List (List Int)
  | 0 => initialWindow radius src height
  | i + 1 => shuffleTileRows radius src height i (windowAt radius src height i)

/-- The complete filter run of `median` over a width x height region:
for each output row i, handleInputRow on the window state at i. -/
def medianRun (U : MedianInputValues) (src : Nat → List Int)
    (width height channels : Nat) : List (List Int) :=
  (List.range height).map (fun i =>
    handleInputRow U (windowAt U.radius src height i) width channels)

/-- The row a uniform flat-colour region holds at every vertical
position: channel k of every pixel equals c k. -/
def flatRow (width channels : Nat) (c : Nat → Int) : List Int :=
  ((List.range width).map (fun _ => (List.range channels).map c)).flatten

/-! ### Helper lemmas -/

theorem flatten_length_const (ch : Nat) (L : List (List Int))
    (hL : ∀ l ∈ L, l.length = ch) : L.flatten.length = L.length * ch := by
  induction L with
  | nil => simp
  | cons a L ih =>
      have ha := hL a (List.mem_cons_self a L)
      have ih2 := ih (fun l hl => hL l (List.mem_cons_of_mem a hl))
      rw [List.flatten_cons, List.length_append, ha, ih2, List.length_cons,
        Nat.succ_mul]
      omega

theorem flatten_getD_const (ch : Nat) :
    ∀ L : List (List Int), (∀ l ∈ L, l.length = ch) →
      ∀ i k : Nat, i < L.length → k < ch →
        L.flatten.getD (i * ch + k) 0 = (L.getD i []).getD k 0 := by
  intro L
  induction L with
  | nil => intro _ i k hi _; exact absurd hi (Nat.not_lt_zero i)
  | cons a L ih =>
      intro hL i k hi hk
      have ha := hL a (List.mem_cons_self a L)
      cases i with
      | zero =>
          rw [List.flatten_cons, Nat.zero_mul, Nat.zero_add, List.getD_cons_zero,
            List.getD_append _ _ _ k (ha ▸ hk)]
      | succ i =>
          have hL2 : ∀ l ∈ L, l.length = ch :=
            fun l hl => hL l (List.mem_cons_of_mem a hl)
          have hi2 : i < L.length := by
            rw [List.length_cons] at hi; omega
          have hidx : (i + 1) * ch + k = a.length + (i * ch + k) := by
            rw [Nat.succ_mul, ha]; omega
          rw [List.flatten_cons, hidx, List.getD_cons_succ,
            List.getD_append_right _ _ _ _ (Nat.le_add_right _ _),
            Nat.add_sub_cancel_left]
          exact ih hL2 i k hi2 hk

theorem getD_map_range {α : Type} (d : α) (w : Nat) (f : Nat → α) (i : Nat)
    (hi : i < w) : ((List.range w).map f).getD i d = f i := by
  rw [List.getD_eq_getElem _ _ (by simpa using hi), List.getElem_map,
    List.getElem_range]

theorem getD_replicate_of_lt {α : Type} (d : α) (n m : Nat) (c : α) (hm : m < n) :
    (List.replicate n c).getD m d = c := by
  rw [List.getD_eq_getElem _ _ (by simpa using hm)]
  exact List.getElem_replicate _ _

theorem cCLAMP_bounds (x low high : Int) (hlh : low ≤ high) :
    low ≤ cCLAMP x low high ∧ cCLAMP x low high ≤ high := by
  unfold cCLAMP
  split
  · omega
  · split <;> omega

theorem clampCol_lt (width : Nat) (jj : Int) (hw : 1 ≤ width) :
    clampCol width jj < width := by
  have h := cCLAMP_bounds jj 0 ((width : Int) - 1) (by omega)
  unfold clampCol
  omega

theorem clampCol_of_lt (width j : Nat) (hj : j < width) :
    clampCol width (j : Int) = j := by
  unfold clampCol cCLAMP
  split
  · omega
  · split <;> omega

theorem samplePixels_rows_length (inputRow : List (List Int))
    (width channels radius j k : Nat) :
    ∀ l ∈ (List.range (2 * radius + 1)).map (fun ii =>
      (List.range (2 * radius + 1)).map (fun (t : Nat) =>
        (inputRow.getD ii []).getD
          (channels * clampCol width ((j : Int) - (radius : Int) + (t : Int)) + k) 0)),
      l.length = 2 * radius + 1 := by
  intro l hl
  obtain ⟨ii, _, rfl⟩ := List.mem_map.mp hl
  rw [List.length_map, List.length_range]

theorem samplePixels_length (inputRow : List (List Int))
    (width channels radius j k : Nat) :
    (samplePixels inputRow width channels radius j k).length =
      numberOfPixels radius := by
  rw [samplePixels,
    flatten_length_const _ _ (samplePixels_rows_length inputRow width channels radius j k),
    List.length_map, List.length_range, numberOfPixels]
  ring

theorem samplePixels_getD (inputRow : List (List Int))
    (width channels radius j k ii t : Nat)
    (hii : ii < 2 * radius + 1) (ht : t < 2 * radius + 1) :
    (samplePixels inputRow width channels radius j k).getD
        (ii * (2 * radius + 1) + t) 0 =
      (inputRow.getD ii []).getD
        (channels * clampCol width ((j : Int) - (radius : Int) + (t : Int)) + k) 0 := by
  rw [samplePixels,
    flatten_getD_const _ _ (samplePixels_rows_length inputRow width channels radius j k)
      ii t (by simpa using hii) ht,
    getD_map_range _ _ _ ii hii, getD_map_range _ _ _ t ht]

theorem numberOfPixels_odd (radius : Nat) : numberOfPixels radius % 2 = 1 := by
  have h : 4 * radius * radius = 4 * (radius * radius) := by ring
  unfold numberOfPixels
  omega

theorem numberOfPixels_half (radius : Nat) :
    numberOfPixels radius / 2 = radius * (2 * radius + 1) + radius := by
  have h1 : 4 * radius * radius = 4 * (radius * radius) := by ring
  have h2 : radius * (2 * radius + 1) = 2 * (radius * radius) + radius := by ring
  unfold numberOfPixels
  omega

theorem sortPixels_replicate (n : Nat) (c : Int) (l : List Int)
    (hlen : l.length = n) (hall : ∀ x ∈ l, x = c) :
    sortPixels l = List.replicate n c := by
  have h1 : ∀ x ∈ sortPixels l, x = c :=
    fun x hx => hall x ((List.mem_insertionSort _).mp hx)
  have h2 : (sortPixels l).length = n := by
    rw [sortPixels, List.length_insertionSort, hlen]
  rw [← h2]
  exact List.eq_replicate_length.mpr h1

theorem medianOf_replicate (radius : Nat) (hr : 1 ≤ radius) (c : Int) :
    medianOf radius (List.replicate (numberOfPixels radius) c) = c := by
  have hsorted : sortPixels (List.replicate (numberOfPixels radius) c) =
      List.replicate (numberOfPixels radius) c :=
    sortPixels_replicate _ _ _ (List.length_replicate _ _)
      (fun x hx => (List.eq_of_mem_replicate hx))
  have hsq : 1 ≤ radius * radius := Nat.one_le_iff_ne_zero.mpr (by positivity)
  have hlt : numberOfPixels radius / 2 + 1 < numberOfPixels radius := by
    have h1 : 4 * radius * radius = 4 * (radius * radius) := by ring
    unfold numberOfPixels
    omega
  simp only [medianOf, numberOfPixels_odd radius, if_pos]
  rw [hsorted, getD_replicate_of_lt _ _ _ _ hlt]

theorem decideVariant_self (U : MedianInputValues) (x : Int) :
    decideVariant U x x = x := by
  unfold decideVariant
  repeat' split
  all_goals simp

theorem windowAt_length (radius : Nat) (src : Nat → List Int) (height i : Nat) :
    (windowAt radius src height i).length = 2 * radius + 1 := by
  induction i with
  | zero =>
      rw [windowAt, initialWindow, List.length_map, List.length_range]
  | succ i ih =>
      rw [windowAt, shuffleTileRows, List.length_append, List.length_drop, ih,
        List.length_singleton]
      omega

theorem windowAt_rows_from_src (radius : Nat) (src : Nat → List Int)
    (height : Nat) (hh : 1 ≤ height) (i : Nat) :
    ∀ row ∈ windowAt radius src height i, ∃ y, y < height ∧ row = src y := by
  induction i with
  | zero =>
      intro row hr
      rw [windowAt, initialWindow] at hr
      obtain ⟨m, _, rfl⟩ := List.mem_map.mp hr
      refine ⟨_, ?_, rfl⟩
      have hb := cCLAMP_bounds ((m : Int) - (radius : Int)) 0 ((height : Int) - 1)
        (by omega)
      omega
  | succ i ih =>
      intro row hr
      rw [windowAt, shuffleTileRows] at hr
      rcases List.mem_append.mp hr with hmem | hnew
      · exact ih row (List.mem_of_mem_drop hmem)
      · refine ⟨_, ?_, (List.mem_singleton.mp hnew)⟩
        have hm : min ((i : Int) + (radius : Int)) ((height : Int) - 1) ≤
            (height : Int) - 1 := min_le_right _ _
        omega

theorem flatRow_rows_length (width channels : Nat) (c : Nat → Int) :
    ∀ l ∈ (List.range width).map (fun _ => (List.range channels).map c),
      l.length = channels := by
  intro l hl
  obtain ⟨jj, _, rfl⟩ := List.mem_map.mp hl
  rw [List.length_map, List.length_range]

theorem flatRow_getD (width channels : Nat) (c : Nat → Int) (j k : Nat)
    (hj : j < width) (hk : k < channels) :
    (flatRow width channels c).getD (j * channels + k) 0 = c k := by
  rw [flatRow,
    flatten_getD_const _ _ (flatRow_rows_length width channels c) j k
      (by simpa using hj) hk,
    getD_map_range _ _ _ j hj, getD_map_range _ _ _ k hk]

theorem samplePixels_flat (width channels radius j k : Nat) (c : Nat → Int)
    (W : List (List Int)) (hW : ∀ row ∈ W, row = flatRow width channels c)
    (hWlen : W.length = 2 * radius + 1) (hw : 1 ≤ width) (hk : k < channels) :
    samplePixels W width channels radius j k =
      List.replicate (numberOfPixels radius) (c k) := by
  rw [← samplePixels_length W width channels radius j k]
  apply List.eq_replicate_length.mpr
  intro b hb
  rw [samplePixels] at hb
  obtain ⟨l, hl, hbl⟩ := List.mem_flatten.mp hb
  obtain ⟨ii, hii, rfl⟩ := List.mem_map.mp hl
  obtain ⟨t, _, rfl⟩ := List.mem_map.mp hbl
  have hii2 : ii < W.length := by rw [hWlen]; exact List.mem_range.mp hii
  have hWii : W.getD ii [] = flatRow width channels c := by
    rw [List.getD_eq_getElem _ _ hii2]
    exact hW _ (List.getElem_mem hii2)
  rw [hWii, Nat.mul_comm channels _,
    flatRow_getD width channels c _ k (clampCol_lt width _ hw) hk]

theorem handleInputRow_rows_length (U : MedianInputValues)
    (inputRow : List (List Int)) (width channels : Nat) :
    ∀ l ∈ (List.range width).map (fun j =>
      (List.range channels).map (fun k =>
        let pixelsArray := samplePixels inputRow width channels U.radius j k
        let middlePixel := pixelsArray.getD (numberOfPixels U.radius / 2) 0
        let medianResult := medianOf U.radius pixelsArray
        decideVariant U middlePixel medianResult % 256)),
      l.length = channels := by
  intro l hl
  obtain ⟨jj, _, rfl⟩ := List.mem_map.mp hl
  rw [List.length_map, List.length_range]

theorem handleInputRow_length (U : MedianInputValues)
    (inputRow : List (List Int)) (width channels : Nat) :
    (handleInputRow U inputRow width channels).length = width * channels := by
  rw [handleInputRow,
    flatten_length_const _ _ (handleInputRow_rows_length U inputRow width channels),
    List.length_map, List.length_range]

theorem handleInputRow_getD (U : MedianInputValues)
    (inputRow : List (List Int)) (width channels j k : Nat)
    (hj : j < width) (hk : k < channels) :
    (handleInputRow U inputRow width channels).getD (j * channels + k) 0 =
      decideVariant U
        ((samplePixels inputRow width channels U.radius j k).getD
          (numberOfPixels U.radius / 2) 0)
        (medianOf U.radius (samplePixels inputRow width channels U.radius j k))
        % 256 := by
  rw [handleInputRow,
    flatten_getD_const _ _ (handleInputRow_rows_length U inputRow width channels)
      j k (by simpa using hj) hk,
    getD_map_range _ _ _ j hj, getD_map_range _ _ _ k hk]

theorem handleInputRow_flat (U : MedianInputValues) (W : List (List Int))
    (width channels : Nat) (c : Nat → Int)
    (hr : 1 ≤ U.radius) (hw : 1 ≤ width)
    (hc : ∀ k, k < channels → 0 ≤ c k ∧ c k < 256)
    (hW : ∀ row ∈ W, row = flatRow width channels c)
    (hWlen : W.length = 2 * U.radius + 1) :
    handleInputRow U W width channels = flatRow width channels c := by
  rw [handleInputRow, flatRow]
  congr 1
  apply List.map_congr_left
  intro j hj
  apply List.map_congr_left
  intro k hk
  have hk2 := List.mem_range.mp hk
  show decideVariant U
      ((samplePixels W width channels U.radius j k).getD
        (numberOfPixels U.radius / 2) 0)
      (medianOf U.radius (samplePixels W width channels U.radius j k)) % 256 = c k
  have hs := samplePixels_flat width channels U.radius j k c W hW hWlen hw hk2
  have hmid : numberOfPixels U.radius / 2 < numberOfPixels U.radius := by
    unfold numberOfPixels
    omega
  rw [hs, getD_replicate_of_lt _ _ _ _ hmid, medianOf_replicate U.radius hr (c k),
    decideVariant_self, Int.emod_eq_of_lt (hc k hk2).1 (hc k hk2).2]

theorem medianRun_flat_of_src (U : MedianInputValues) (src : Nat → List Int)
    (width height channels : Nat) (c : Nat → Int)
    (hr : 1 ≤ U.radius) (hw : 1 ≤ width) (hh : 1 ≤ height)
    (hc : ∀ k, k < channels → 0 ≤ c k ∧ c k < 256)
    (hsrc : ∀ y, y < height → src y = flatRow width channels c) :
    medianRun U src width height channels =
      List.replicate height (flatRow width channels c) := by
  rw [medianRun]
  have hrow : ∀ i ∈ List.range height,
      handleInputRow U (windowAt U.radius src height i) width channels =
        flatRow width channels c := by
    intro i _
    apply handleInputRow_flat U _ width channels c hr hw hc _ (windowAt_length _ _ _ _)
    intro row hrow
    obtain ⟨y, hy, rfl⟩ := windowAt_rows_from_src U.radius src height hh i row hrow
    exact hsrc y hy
  rw [List.map_congr_left hrow,
    show (fun _ : Nat => flatRow width channels c) =
      Function.const Nat (flatRow width channels c) from rfl,
    List.map_const, List.length_range]

/-! ### Claim theorems -/

/-- Claim C1, refuted by the code: the spec demands that the odd-count
median selection return the element at index n/2 of the ascending sort,
but for the radius-1 sample [2, 9, 4, 7, 5, 1, 8, 3, 6] (n = 9, sorted
[1..9]) the code computes sorted[n/2 + 1] = 6 while the true middle
element sorted[n/2] is 5. At radius 0 (n = 1) the code even reads index
1 of a 1-element array. -/
theorem medianOf_offByOne_eval :
    medianOf 1 [2, 9, 4, 7, 5, 1, 8, 3, 6] = 6 ∧
    (sortPixels [2, 9, 4, 7, 5, 1, 8, 3, 6]).getD (numberOfPixels 1 / 2) 0 = 5 ∧
    sortPixels [2, 9, 4, 7, 5, 1, 8, 3, 6] = [1, 2, 3, 4, 5, 6, 7, 8, 9] := by
  decide

/-- Claim C2, refuted by the code: the claimed window invariant says
that when output row i is produced the window holds, at offset o, the
source row clamp(i + o, 0, height-1). With radius 1, height 3 and the
source row y being [y], the window at output row 1 is [[0], [1], [1]]:
at offset +1 it holds source row 1, while the claim demands
clamp(1 + 1, 0, 2) = 2, i.e. [[0], [1], [2]]. shuffle_tile_rows fetches
row min(ypos + radius, height-1) instead of min(ypos + 1 + radius,
height-1), contradicting its own comment. -/
theorem windowAt_advance_lags_eval :
    windowAt 1 (fun y => [(y : Int)]) 3 1 = [[0], [1], [1]] ∧
    (cCLAMP ((1 : Int) + 1) 0 ((3 : Int) - 1)).toNat = 2 := by
  decide

/-- Claim C3: the neighbourhood extraction produces exactly (2r+1)^2
values (the count 4r^2+4r+1 equals (2r+1)^2), enumerated with the
window row as the outer loop (index ii) and horizontal positions
j-r .. j+r as the inner loop (position j - r + t), each horizontal
position independently clamped into [0, width-1] before the
channel-interleaved index channels*pos + k is formed. -/
theorem samplePixels_contract (inputRow : List (List Int))
    (width channels radius j k ii t : Nat)
    (hr : 1 ≤ radius) (hj : j < width) (hk : k < channels)
    (hii : ii < 2 * radius + 1) (ht : t < 2 * radius + 1) :
    (samplePixels inputRow width channels radius j k).length =
        (2 * radius + 1) ^ 2 ∧
    numberOfPixels radius = (2 * radius + 1) ^ 2 ∧
    (samplePixels inputRow width channels radius j k).getD
        (ii * (2 * radius + 1) + t) 0 =
      (inputRow.getD ii []).getD
        (channels * clampCol width ((j : Int) - (radius : Int) + (t : Int)) + k) 0 ∧
    clampCol width ((j : Int) - (radius : Int) + (t : Int)) < width := by
  have hnum : numberOfPixels radius = (2 * radius + 1) ^ 2 := by
    unfold numberOfPixels; ring
  exact ⟨by rw [samplePixels_length, hnum], hnum,
    samplePixels_getD inputRow width channels radius j k ii t hii ht,
    clampCol_lt width _ (by omega)⟩

/-- Witness for samplePixels_contract at a concrete input. -/
theorem samplePixels_contract_witness :
    (samplePixels [[1, 2], [3, 4], [5, 6]] 2 1 1 1 0).length = (2 * 1 + 1) ^ 2 ∧
    numberOfPixels 1 = (2 * 1 + 1) ^ 2 ∧
    (samplePixels [[1, 2], [3, 4], [5, 6]] 2 1 1 1 0).getD
        (2 * (2 * 1 + 1) + 0) 0 =
      ([[1, 2], [3, 4], [5, 6]].getD 2 []).getD
        (1 * clampCol 2 (((1 : Nat) : Int) - ((1 : Nat) : Int) + ((0 : Nat) : Int)) + 0) 0 ∧
    clampCol 2 (((1 : Nat) : Int) - ((1 : Nat) : Int) + ((0 : Nat) : Int)) < 2 :=
  samplePixels_contract [[1, 2], [3, 4], [5, 6]] 2 1 1 1 0 2 0
    (by decide) (by decide) (by decide) (by decide) (by decide)

/-- Claim C4: the complete filter run on the 5x1 single-channel region
[10, 200, 10, 10, 10] with radius 1 and the default decision mode
(both thresholds zero, both flags false) produces the output row
[10, 10, 10, 10, 10]. -/
theorem medianRun_spike_scenario :
    medianRun ⟨1, 0, 0, false, false⟩ (fun _ => [10, 200, 10, 10, 10]) 5 1 1 =
      [[10, 10, 10, 10, 10]] := by
  decide

/-- Claim C5: in band-keep mode (both thresholds nonzero, both flags
false), the decision step emits the median m exactly when the original
pixel p lies in [m - lessThan, m + greaterThan], else the original. -/
theorem decideVariant_bandKeep (U : MedianInputValues) (p m : Int)
    (h1 : U.lessThan ≠ 0) (h2 : U.greaterThan ≠ 0)
    (hA : U.button = false) (hB : U.button2 = false) :
    decideVariant U p m =
      if m - U.lessThan ≤ p ∧ p ≤ m + U.greaterThan then m else p := by
  unfold decideVariant
  simp [mode1Active, mode2Active, mode3Active, mode4Active, h1, h2, hA, hB,
    ge_iff_le]

/-- Witness for decideVariant_bandKeep: the spec scenario with
lessThan = greaterThan = 5, original 200, median 10 keeps the spike. -/
theorem decideVariant_bandKeep_witness :
    decideVariant ⟨1, 5, 5, false, false⟩ 200 10 =
      if (10 : Int) - 5 ≤ 200 ∧ (200 : Int) ≤ 10 + 5 then (10 : Int) else 200 :=
  decideVariant_bandKeep ⟨1, 5, 5, false, false⟩ 200 10
    (by decide) (by decide) rfl rfl

/-- Claim C6: the four variant mode activation conditions are pairwise
mutually exclusive for every configuration V, and any configuration U
that matches none of the four modes emits the computed median
unconditionally. -/
theorem variantModes_exclusive (U V : MedianInputValues) (p m : Int)
    (h1 : ¬ mode1Active U) (h2 : ¬ mode2Active U)
    (h3 : ¬ mode3Active U) (h4 : ¬ mode4Active U) :
    ¬ (mode1Active V ∧ mode2Active V) ∧ ¬ (mode1Active V ∧ mode3Active V) ∧
    ¬ (mode1Active V ∧ mode4Active V) ∧ ¬ (mode2Active V ∧ mode3Active V) ∧
    ¬ (mode2Active V ∧ mode4Active V) ∧ ¬ (mode3Active V ∧ mode4Active V) ∧
    decideVariant U p m = m := by
  refine ⟨?_, ?_, ?_, ?_, ?_, ?_, ?_⟩
  · rintro ⟨⟨-, hg, -, -⟩, ⟨-, hg2, -, -⟩⟩
    exact hg2 hg
  · rintro ⟨⟨-, -, hb, -⟩, ⟨-, -, -, hb2⟩⟩
    rw [hb] at hb2
    exact Bool.noConfusion hb2
  · rintro ⟨⟨-, hg, -, -⟩, ⟨-, hg2, -, -⟩⟩
    exact hg2 hg
  · rintro ⟨⟨hl, -, -, -⟩, ⟨hl2, -, -, -⟩⟩
    exact hl2 hl
  · rintro ⟨⟨hl, -, -, -⟩, ⟨hl2, -, -, -⟩⟩
    exact hl2 hl
  · rintro ⟨⟨-, -, hb, -⟩, ⟨-, -, hb2, -⟩⟩
    rw [hb] at hb2
    exact Bool.noConfusion hb2
  · simp only [decideVariant, if_neg h1, if_neg h2, if_neg h3, if_neg h4]

/-- Witness for variantModes_exclusive: V activates mode 1, U
(lessThan nonzero, flags false, greaterThan zero) matches no mode and
yields the median. -/
theorem variantModes_exclusive_witness :
    ¬ (mode1Active ⟨2, 1, 0, true, false⟩ ∧ mode2Active ⟨2, 1, 0, true, false⟩) ∧
    ¬ (mode1Active ⟨2, 1, 0, true, false⟩ ∧ mode3Active ⟨2, 1, 0, true, false⟩) ∧
    ¬ (mode1Active ⟨2, 1, 0, true, false⟩ ∧ mode4Active ⟨2, 1, 0, true, false⟩) ∧
    ¬ (mode2Active ⟨2, 1, 0, true, false⟩ ∧ mode3Active ⟨2, 1, 0, true, false⟩) ∧
    ¬ (mode2Active ⟨2, 1, 0, true, false⟩ ∧ mode4Active ⟨2, 1, 0, true, false⟩) ∧
    ¬ (mode3Active ⟨2, 1, 0, true, false⟩ ∧ mode4Active ⟨2, 1, 0, true, false⟩) ∧
    decideVariant ⟨2, 1, 0, false, false⟩ 7 3 = 3 :=
  variantModes_exclusive ⟨2, 1, 0, false, false⟩ ⟨2, 1, 0, true, false⟩ 7 3
    (by decide) (by decide) (by decide) (by decide)

/-- Claim C7: the sample count 4r^2 + 4r + 1 is odd for every radius,
so the median computation always takes the odd branch; the even-count
averaging branch is unreachable. -/
theorem numberOfPixels_always_odd (radius : Nat) (pixelsArray : List Int) :
    numberOfPixels radius % 2 = 1 ∧
    medianOf radius pixelsArray =
      (sortPixels pixelsArray).getD (numberOfPixels radius / 2 + 1) 0 := by
  refine ⟨numberOfPixels_odd radius, ?_⟩
  simp only [medianOf, numberOfPixels_odd radius, if_pos]

/-- Claim C8: on a uniform flat-colour region (channel k constant c k,
byte-valued), one filter run reproduces the flat rows exactly, for
every radius at least 1 and every configuration; hence a second run on
the output returns the same flat colour (flat-field fixed point). -/
theorem medianRun_flatField (U : MedianInputValues) (src : Nat → List Int)
    (width height channels : Nat) (c : Nat → Int)
    (hr : 1 ≤ U.radius) (hw : 1 ≤ width) (hh : 1 ≤ height)
    (hc : ∀ k, k < channels → 0 ≤ c k ∧ c k < 256)
    (hsrc : ∀ y, y < height → src y = flatRow width channels c) :
    medianRun U src width height channels =
        List.replicate height (flatRow width channels c) ∧
      medianRun U (fun y => (medianRun U src width height channels).getD y [])
          width height channels =
        List.replicate height (flatRow width channels c) := by
  have h1 := medianRun_flat_of_src U src width height channels c hr hw hh hc hsrc
  refine ⟨h1, medianRun_flat_of_src U _ width height channels c hr hw hh hc ?_⟩
  intro y hy
  rw [h1, getD_replicate_of_lt _ _ _ _ hy]

/-- Witness for medianRun_flatField at a concrete 2x2 two-channel flat
region with value 7 and a variant configuration. -/
theorem medianRun_flatField_witness :
    medianRun ⟨1, 3, 4, true, true⟩ (fun _ => flatRow 2 2 (fun _ => 7)) 2 2 2 =
        List.replicate 2 (flatRow 2 2 (fun _ => 7)) ∧
      medianRun ⟨1, 3, 4, true, true⟩
          (fun y => (medianRun ⟨1, 3, 4, true, true⟩
            (fun _ => flatRow 2 2 (fun _ => 7)) 2 2 2).getD y []) 2 2 2 =
        List.replicate 2 (flatRow 2 2 (fun _ => 7)) :=
  medianRun_flatField ⟨1, 3, 4, true, true⟩ (fun _ => flatRow 2 2 (fun _ => 7))
    2 2 2 (fun _ => 7) (by decide) (by decide) (by decide)
    (fun _ _ => ⟨by norm_num, by norm_num⟩) (fun _ _ => rfl)

/-- Claim C9: one call of the row processor produces an output row of
length exactly width * channels, and the byte at interleaved index
j * channels + k is the Sampler, Selector, Policy pipeline result for
position j, channel k (stored into the guchar row, i.e. mod 256). -/
theorem handleInputRow_output_layout (U : MedianInputValues)
    (inputRow : List (List Int)) (width channels j k : Nat)
    (hj : j < width) (hk : k < channels) :
    (handleInputRow U inputRow width channels).length = width * channels ∧
    (handleInputRow U inputRow width channels).getD (j * channels + k) 0 =
      decideVariant U
        ((samplePixels inputRow width channels U.radius j k).getD
          (numberOfPixels U.radius / 2) 0)
        (medianOf U.radius (samplePixels inputRow width channels U.radius j k))
        % 256 :=
  ⟨handleInputRow_length U inputRow width channels,
   handleInputRow_getD U inputRow width channels j k hj hk⟩

/-- Witness for handleInputRow_output_layout at a concrete input. -/
theorem handleInputRow_output_layout_witness :
    (handleInputRow ⟨1, 0, 0, false, false⟩ [[1, 2], [3, 4], [5, 6]] 2 1).length =
        2 * 1 ∧
    (handleInputRow ⟨1, 0, 0, false, false⟩ [[1, 2], [3, 4], [5, 6]] 2 1).getD
        (1 * 1 + 0) 0 =
      decideVariant ⟨1, 0, 0, false, false⟩
        ((samplePixels [[1, 2], [3, 4], [5, 6]] 2 1 1 1 0).getD
          (numberOfPixels 1 / 2) 0)
        (medianOf 1 (samplePixels [[1, 2], [3, 4], [5, 6]] 2 1 1 1 0)) % 256 :=
  handleInputRow_output_layout ⟨1, 0, 0, false, false⟩ [[1, 2], [3, 4], [5, 6]]
    2 1 1 0 (by decide) (by decide)

/-- Claim C10: the original-pixel value used by the variant decision is
read at index numberOfPixels / 2 of the sample array before sorting,
and that index holds the centre sample of the enumeration: the window
middle row at the unclamped column j, channel k. -/
theorem middlePixel_is_center_sample (inputRow : List (List Int))
    (width channels radius j k : Nat) (hj : j < width) (hk : k < channels) :
    (samplePixels inputRow width channels radius j k).getD
        (numberOfPixels radius / 2) 0 =
      (inputRow.getD radius []).getD (channels * j + k) 0 := by
  rw [numberOfPixels_half radius,
    samplePixels_getD inputRow width channels radius j k radius radius
      (by omega) (by omega)]
  have hc : (j : Int) - (radius : Int) + ((radius : Nat) : Int) = (j : Int) := by
    ring
  rw [hc, clampCol_of_lt width j hj]

/-- Witness for middlePixel_is_center_sample: at the concrete window
[[1,2],[3,4],[5,6]] the unsorted centre sample at index 4 is 4, the
middle row at column 1. -/
theorem middlePixel_is_center_sample_witness :
    (samplePixels [[1, 2], [3, 4], [5, 6]] 2 1 1 1 0).getD
        (numberOfPixels 1 / 2) 0 =
      ([[1, 2], [3, 4], [5, 6]].getD 1 []).getD (1 * 1 + 0) 0 :=
  middlePixel_is_center_sample [[1, 2], [3, 4], [5, 6]] 2 1 1 1 0
    (by decide) (by decide)

end MedianFilter
